import Mathlib

/-!
Verification of the resource accounting engine of `slurm_web` (`app.py`).

Python dictionaries are modelled as association lists (`List (String × α)`)
that preserve insertion order; `dict` lookup is first-match lookup and new
keys are appended at the end, matching CPython's insertion-order semantics.
Counts are natural numbers (the scheduler reports non-negative counts), and
`max(count - n, 0)` on Python ints coincides with truncated subtraction on ℕ.
Fallible Python code (KeyError, ValueError, AssertionError) is modelled with
`Option`, `none` meaning the computation raises.
-/

namespace SlurmWeb

/-! ### Association-list primitives (Python `dict` model) -/

/-- First-match lookup in an insertion-ordered association list
(Python `d[k]` / `d.get(k)`). -/
def alookup {α : Type} : List (String × α) → String → Option α
  | [], _ => none
  | kv :: rest, k => if kv.1 = k then some kv.2 else alookup rest k

/-- `d.get(k, default)`. -/
def agetD {α : Type} (l : List (String × α)) (k : String) (d : α) : α :=
  (alookup l k).getD d

/-- Update the value at key `k` with `f` (starting from `d` when the key is
missing, in which case the new key is appended at the end, as CPython dict
insertion does).  This is the shape of `d[k] = f(d.get(k, default))`, and of
`defaultdict` access followed by mutation. -/
def bumpKey {α : Type} (d : α) (f : α → α) : List (String × α) → String → List (String × α)
  | [], k => [(k, f d)]
  | kv :: rest, k => if kv.1 = k then (kv.1, f kv.2) :: rest else kv :: bumpKey d f rest k

theorem alookup_bumpKey {α : Type} (d : α) (f : α → α) (l : List (String × α)) (k k' : String) :
    alookup (bumpKey d f l k') k =
      if k = k' then some (f (agetD l k' d)) else alookup l k := by
  induction l with
  | nil =>
      by_cases h : k = k'
      · simp [bumpKey, alookup, agetD, h]
      · have h' : ¬ k' = k := fun hk => h hk.symm
        simp [bumpKey, alookup, agetD, h, h']
  | cons kv rest ih =>
      by_cases h1 : kv.1 = k'
      · by_cases h2 : k = k'
        · simp [bumpKey, alookup, agetD, h1, h2]
        · have h2' : ¬ k' = k := fun hk => h2 hk.symm
          simp [bumpKey, alookup, agetD, h1, h2, h2']
      · by_cases h2 : kv.1 = k
        · have h3 : ¬ k = k' := by rw [← h2]; exact fun hk => h1 hk
          simp [bumpKey, alookup, agetD, h1, h2, h3]
        · simp [bumpKey, alookup, agetD, h1, h2, ih]

theorem alookup_map {α β : Type} (F : α → β) (l : List (String × α)) (k : String) :
    alookup (l.map (fun p => (p.1, F p.2))) k = (alookup l k).map F := by
  induction l with
  | nil => simp [alookup]
  | cons kv rest ih =>
      by_cases h : kv.1 = k <;> simp [alookup, h, ih]

theorem alookup_mem {α : Type} {l : List (String × α)} {k : String} {v : α}
    (h : alookup l k = some v) : (k, v) ∈ l := by
  induction l with
  | nil => simp [alookup] at h
  | cons kv rest ih =>
      by_cases h1 : kv.1 = k
      · simp [alookup, h1] at h
        subst h1; subst h
        exact List.mem_cons_self _ _
      · simp [alookup, h1] at h
        exact List.mem_cons_of_mem _ (ih h)

/-! ### Inventory data model and health filter (`parse_usage_to_table`, app.py 210-215) -/

/-- One GPU resource slot of a node, as produced by `parse_all_gpus`:
a `{"type": ..., "count": ...}` dictionary. -/
structure Slot where
  type : String
  count : Nat
deriving DecidableEq, Repr

/-- `parse_all_gpus()` output: node name → list of slots. -/
abbrev Res := List (String × List Slot)

/-- `node_states()` output: node name → raw health-state token. -/
abbrev States := List (String × String)

/-- `states.get(key, "down")`. -/
def stateOf (states : States) (node : String) : String :=
  agetD states node "down"

/-- Modelled from the spec: the `INACCESSIBLE` set is imported from the external
`slurm_gpustat` package and is not part of this repository; spec §4.1 names the
inaccessible health states as down, drained and unknown/unreachable. -/
def INACCESSIBLE : List String := ["down", "drained", "drng"]

/-- The health filter (app.py 212-213):
`res = {key: val for key, val in resources.items() if states.get(key, "down") not in INACCESSIBLE}`. -/
def filteredRes (inacc : List String) (resources : Res) (states : States) : Res :=
  resources.filter (fun p => decide (stateOf states p.1 ∉ inacc))

/-- The "total" inventory view (app.py 214): `res_total = copy.deepcopy(res)`.
A deep copy is the identity in a pure model; note that it is the copy of the
already health-filtered `res`, taken before the usage subtraction loop. -/
def resTotalView (inacc : List String) (resources : Res) (states : States) : Res :=
  filteredRes inacc resources states

theorem alookup_filteredRes (inacc : List String) (resources : Res) (states : States)
    (node : String) :
    alookup (filteredRes inacc resources states) node =
      if stateOf states node ∈ inacc then none else alookup resources node := by
  induction resources with
  | nil => simp [filteredRes, alookup]
  | cons kv rest ih =>
      by_cases h1 : kv.1 = node
      · subst h1
        by_cases h2 : stateOf states kv.1 ∈ inacc
        · simp [filteredRes, alookup, h2] at ih ⊢
          exact ih
        · simp [filteredRes, alookup, h2]
      · by_cases h2 : stateOf states kv.1 ∈ inacc
        · simpa [filteredRes, alookup, h1, h2] using ih
        · simpa [filteredRes, alookup, h1, h2] using ih

/-! ### Availability calculator (app.py 217-223)

```
for subdict in usage.values():
    for gpu_type, node_dicts in subdict.items():
        for node_name, user_gpu_count in node_dicts.items():
            resource_idx = [x["type"] for x in res[node_name]].index(gpu_type)
            count = res[node_name][resource_idx]["count"]
            count = max(count - user_gpu_count['n_gpu'], 0)
            res[node_name][resource_idx]["count"] = count
```
`list.index` finds the first slot whose type matches and raises `ValueError`
when there is none; `res[node_name]` raises `KeyError` for an unknown node.
Both exceptions are modelled with `none`.  `max(count - n, 0)` on non-negative
ints is ℕ truncated subtraction. -/

/-- One `n_gpu`/`bash_gpu` pair from `gpu_usage` output. -/
structure GpuEntry where
  n_gpu : Nat
  bash_gpu : Nat
deriving DecidableEq, Repr

/-- `gpu_usage` output: user → gpu type → node → entry. -/
abbrev Usage := List (String × List (String × List (String × GpuEntry)))

/-- Subtract `n` from the count of the first slot whose type is `t`
(`.index` + in-place count update); `none` when no slot matches. -/
def updateSlot (slots : List Slot) (t : String) (n : Nat) : Option (List Slot) :=
  match slots with
  | [] => none
  | s :: rest =>
      if s.type = t then some ({ s with count := s.count - n } :: rest)
      else (updateSlot rest t n).map (fun r => s :: r)

/-- Apply `updateSlot` to the slots of node `node`; `none` when the node is
absent (`KeyError`) or the type is absent (`ValueError`). -/
def updateNode (res : Res) (node t : String) (n : Nat) : Option Res :=
  match res with
  | [] => none
  | kv :: rest =>
      if kv.1 = node then (updateSlot kv.2 t n).map (fun s => (kv.1, s) :: rest)
      else (updateNode rest node t n).map (fun r => kv :: r)

/-- The triple-nested subtraction loop of app.py 217-223. -/
def applyUsage (res : Res) (usage : Usage) : Option Res :=
  usage.foldl (fun acc u =>
    u.2.foldl (fun acc tn =>
      tn.2.foldl (fun acc ne =>
        acc.bind (fun r => updateNode r ne.1 tn.1 ne.2.n_gpu)) acc) acc) (some res)

/-- The count recorded at `(node, t)`: first-match node lookup, then
first-match slot lookup. -/
def slotCount (slots : List Slot) (t : String) : Option Nat :=
  match slots with
  | [] => none
  | s :: rest => if s.type = t then some s.count else slotCount rest t

def resCount (res : Res) (node t : String) : Option Nat :=
  (alookup res node).bind (fun slots => slotCount slots t)

/-- The usage entries flattened to `(gpu_type, node, n_gpu)` triples in
iteration order. -/
def usageTriples (usage : Usage) : List (String × String × Nat) :=
  usage.flatMap (fun u => u.2.flatMap (fun tn => tn.2.map (fun ne => (tn.1, ne.1, ne.2.n_gpu))))

def stepTriple (acc : Option Res) (x : String × String × Nat) : Option Res :=
  acc.bind (fun r => updateNode r x.2.1 x.1 x.2.2)

def applyTriples (acc : Option Res) (ts : List (String × String × Nat)) : Option Res :=
  ts.foldl stepTriple acc

/-- Total accumulated `n_gpu` usage at `(node, t)` over a triple list. -/
def triplesAt : List (String × String × Nat) → String → String → Nat
  | [], _, _ => 0
  | x :: rest, node, t =>
      (if x.1 = t ∧ x.2.1 = node then x.2.2 else 0) + triplesAt rest node t

/-- Total accumulated `n_gpu` usage of `(node, t)` summed over all users. -/
def usageAt (usage : Usage) (node t : String) : Nat :=
  triplesAt (usageTriples usage) node t

theorem applyTriples_none (ts : List (String × String × Nat)) :
    applyTriples none ts = none := by
  induction ts with
  | nil => rfl
  | cons x rest ih => simpa [applyTriples, stepTriple] using ih

theorem applyUsage_eq_triples (res : Res) (usage : Usage) :
    applyUsage res usage = applyTriples (some res) (usageTriples usage) := by
  suffices h : ∀ (acc : Option Res),
      usage.foldl (fun acc u =>
        u.2.foldl (fun acc tn =>
          tn.2.foldl (fun acc ne =>
            acc.bind (fun r => updateNode r ne.1 tn.1 ne.2.n_gpu)) acc) acc) acc
        = applyTriples acc (usageTriples usage) by
    exact h (some res)
  induction usage with
  | nil => intro acc; simp [usageTriples, applyTriples]
  | cons u rest ih =>
      intro acc
      simp only [List.foldl_cons, usageTriples, List.flatMap_cons, applyTriples,
        List.foldl_append]
      rw [← applyTriples]
      rw [← usageTriples, ih]
      congr 1
      clear ih
      induction u.2 generalizing acc with
      | nil => simp [applyTriples]
      | cons tn rest2 ih2 =>
          simp only [List.foldl_cons, List.flatMap_cons, applyTriples, List.foldl_append]
          rw [← applyTriples, ih2]
          congr 1
          clear ih2
          induction tn.2 generalizing acc with
          | nil => simp [applyTriples]
          | cons ne rest3 ih3 =>
              simp only [List.foldl_cons, List.map_cons, applyTriples, List.foldl_cons]
              rw [← applyTriples, ih3]
              rfl

theorem slotCount_updateSlot {slots : List Slot} {t : String} {n : Nat} {slots' : List Slot}
    (h : updateSlot slots t n = some slots') (t' : String) :
    slotCount slots' t' =
      if t' = t then (slotCount slots t).map (fun c => c - n) else slotCount slots t' := by
  induction slots generalizing slots' with
  | nil => simp [updateSlot] at h
  | cons s rest ih =>
      obtain ⟨st, sc⟩ := s
      rw [updateSlot] at h
      by_cases h1 : st = t
      · simp only [h1, if_pos, Option.some.injEq] at h
        subst h
        subst h1
        by_cases h2 : t' = st
        · subst h2
          simp [slotCount]
        · have h3 : ¬ st = t' := fun hk => h2 hk.symm
          simp [slotCount, h2, h3]
      · simp only [h1, if_neg, not_false_iff, Option.map_eq_some'] at h
        obtain ⟨r, hr, hs⟩ := h
        subst hs
        by_cases h2 : st = t'
        · have h3 : ¬ t' = t := by rw [← h2]; exact fun hk => h1 hk
          simp [slotCount, h2, h3]
        · simp [slotCount, h1, h2, ih hr]

theorem resCount_updateNode {res : Res} {node t : String} {n : Nat} {res' : Res}
    (h : updateNode res node t n = some res') (node' t' : String) :
    resCount res' node' t' =
      if node' = node ∧ t' = t then (resCount res node' t').map (fun c => c - n)
      else resCount res node' t' := by
  induction res generalizing res' with
  | nil => simp [updateNode] at h
  | cons kv rest ih =>
      rw [updateNode] at h
      by_cases h1 : kv.1 = node
      · simp only [h1, if_pos, Option.map_eq_some'] at h
        obtain ⟨s, hs, hres⟩ := h
        subst hres
        by_cases h2 : node' = node
        · have hk : kv.1 = node' := by rw [h1, h2]
          have hsl := slotCount_updateSlot hs t'
          by_cases h3 : t' = t
          · rw [if_pos h3] at hsl
            subst h3
            simp [resCount, alookup, hk, h2, hsl]
          · rw [if_neg h3] at hsl
            simp [resCount, alookup, hk, h2, h3, hsl]
        · have hk : ¬ kv.1 = node' := by rw [h1]; exact fun hkk => h2 hkk.symm
          have h2' : ¬ node = node' := by rw [← h1]; exact hk
          simp [resCount, alookup, hk, h2, h2']
      · simp only [h1, if_neg, not_false_iff, Option.map_eq_some'] at h
        obtain ⟨r, hr, hres⟩ := h
        subst hres
        by_cases h2 : kv.1 = node'
        · have h3 : ¬ node' = node := by rw [← h2]; exact fun hk => h1 hk
          simp [resCount, alookup, h2, h3]
        · have := ih hr
          simp only [resCount, alookup, h2, if_neg, not_false_iff] at this ⊢
          exact this

theorem applyTriples_resCount {ts : List (String × String × Nat)} :
    ∀ {res res' : Res}, applyTriples (some res) ts = some res' →
    ∀ node t, resCount res' node t = (resCount res node t).map (fun c => c - triplesAt ts node t) := by
  induction ts with
  | nil =>
      intro res res' h node t
      simp only [applyTriples, List.foldl_nil, Option.some.injEq] at h
      subst h
      cases hc : resCount res node t <;> simp [triplesAt, hc]
  | cons x rest ih =>
      intro res res' h node t
      rw [applyTriples, List.foldl_cons,
        show stepTriple (some res) x = updateNode res x.2.1 x.1 x.2.2 from rfl] at h
      cases hu : updateNode res x.2.1 x.1 x.2.2 with
      | none =>
          rw [hu, show List.foldl stepTriple none rest = applyTriples none rest from rfl,
            applyTriples_none] at h
          cases h
      | some res₂ =>
          rw [hu] at h
          have h2 := ih (h : applyTriples (some res₂) rest = some res') node t
          rw [h2, resCount_updateNode hu node t]
          by_cases hm : x.1 = t ∧ x.2.1 = node
          · rw [if_pos ⟨hm.2.symm, hm.1.symm⟩, triplesAt, if_pos hm]
            cases resCount res node t with
            | none => simp
            | some c => simp [Nat.sub_sub]
          · have hm' : ¬ (node = x.2.1 ∧ t = x.1) := by
              intro hc; exact hm ⟨hc.2.symm, hc.1.symm⟩
            rw [if_neg hm', triplesAt, if_neg hm]
            simp

theorem updateSlot_eq {slots : List Slot} {t : String} {n : Nat} {slots' : List Slot}
    (h : updateSlot slots t n = some slots') :
    ∃ pre s post, slots = pre ++ s :: post ∧ (∀ s' ∈ pre, s'.type ≠ t) ∧ s.type = t ∧
      slots' = pre ++ { s with count := s.count - n } :: post := by
  induction slots generalizing slots' with
  | nil => simp [updateSlot] at h
  | cons s0 rest ih =>
      obtain ⟨st, sc⟩ := s0
      rw [updateSlot] at h
      by_cases h1 : st = t
      · rw [if_pos h1] at h
        have h' := Option.some.inj h
        subst h'
        exact ⟨[], ⟨st, sc⟩, rest, rfl, by simp, h1, rfl⟩
      · rw [if_neg h1, Option.map_eq_some'] at h
        obtain ⟨r, hr, hs⟩ := h
        subst hs
        obtain ⟨pre, s, post, he, hpre, hts, hr'⟩ := ih hr
        refine ⟨⟨st, sc⟩ :: pre, s, post, by rw [he]; rfl, ?_, hts, by rw [hr']; rfl⟩
        intro x hx
        rcases List.mem_cons.mp hx with hx | hx
        · subst hx; exact h1
        · exact hpre x hx

theorem updateNode_eq {res : Res} {node t : String} {n : Nat} {res' : Res}
    (h : updateNode res node t n = some res') :
    ∃ rpre slots slots' rpost, res = rpre ++ (node, slots) :: rpost ∧
      (∀ p ∈ rpre, p.1 ≠ node) ∧ updateSlot slots t n = some slots' ∧
      res' = rpre ++ (node, slots') :: rpost := by
  induction res generalizing res' with
  | nil => simp [updateNode] at h
  | cons kv rest ih =>
      rw [updateNode] at h
      by_cases h1 : kv.1 = node
      · simp only [h1, if_pos, Option.map_eq_some'] at h
        obtain ⟨s, hs, hres⟩ := h
        subst hres
        refine ⟨[], kv.2, s, rest, ?_, by simp, hs, ?_⟩
        · rw [show (node, kv.2) = kv from by rw [← h1]]; rfl
        · rw [show (node, s) = (kv.1, s) from by rw [h1]]; rfl
      · simp only [h1, if_neg, not_false_iff, Option.map_eq_some'] at h
        obtain ⟨r, hr, hres⟩ := h
        subst hres
        obtain ⟨rpre, slots, slots', rpost, he, hpre, hupd, hr'⟩ := ih hr
        refine ⟨kv :: rpre, slots, slots', rpost, by rw [he]; rfl, ?_, hupd, by rw [hr']; rfl⟩
        intro p hp
        rcases List.mem_cons.mp hp with hp | hp
        · subst hp; exact h1
        · exact hpre p hp

/-! ### Claim theorems C1, C2, C10 -/

/-- C1: for every (node, resource-type) slot present in the filtered inventory,
the remaining count computed by the availability loop equals
max(total − accumulated usage, 0); hence remaining lies in [0, total], and
usage exceeding inventory clamps to zero rather than raising an error or going
negative. -/
theorem availability_clamped (inacc : List String) (resources : Res) (states : States)
    (usage : Usage) (res' : Res) (node t : String) (total : Nat)
    (h : applyUsage (filteredRes inacc resources states) usage = some res')
    (htot : resCount (filteredRes inacc resources states) node t = some total) :
    ∃ r, resCount res' node t = some r ∧
      (r : ℤ) = max ((total : ℤ) - (usageAt usage node t : ℤ)) 0 ∧ r ≤ total := by
  rw [applyUsage_eq_triples] at h
  have hmain := applyTriples_resCount h node t
  rw [htot] at hmain
  refine ⟨total - triplesAt (usageTriples usage) node t,
    by simpa [usageAt] using hmain, ?_, Nat.sub_le _ _⟩
  rw [usageAt]
  omega

/-- Witness for C1 at the concrete clamp scenario of spec §8: inventory total 3,
usage 5 on the same node and type, remaining clamps to 0. -/
theorem availability_clamped_witness :
    ∃ r, resCount [("nodeA", [⟨"a100", 0⟩])] "nodeA" "a100" = some r ∧
      (r : ℤ) =
        max ((3 : ℤ) -
          (usageAt [("alice", [("a100", [("nodeA", ⟨5, 0⟩)])])] "nodeA" "a100" : ℤ)) 0 ∧
      r ≤ 3 :=
  availability_clamped INACCESSIBLE [("nodeA", [⟨"a100", 3⟩])] [("nodeA", "mix")]
    [("alice", [("a100", [("nodeA", ⟨5, 0⟩)])])] [("nodeA", [⟨"a100", 0⟩])]
    "nodeA" "a100" 3 (by rfl) (by rfl)

/-- C2 counterexample: on the concrete scenario of spec §8 (nodeA accessible,
nodeB in state "down"), nodeB is absent from the "total" inventory view — the
code deep-copies `res` only after the health filter has run, so the claim that
excluded nodes still appear in the total view is false. -/
theorem total_view_cex :
    alookup (resTotalView INACCESSIBLE
      [("nodeA", [⟨"a100", 4⟩]), ("nodeB", [⟨"v100", 2⟩])]
      [("nodeA", "mix"), ("nodeB", "down")]) "nodeB" = none := by
  rfl

/-- C2 (amended): the "total" inventory view is the deep copy of the inventory
taken after the health filter but before the usage subtraction: a node whose
health state lies in the inaccessible set is absent from the total view exactly
as it is absent from the availability view. -/
theorem total_view_filtered (inacc : List String) (resources : Res) (states : States)
    (node : String) (h : stateOf states node ∈ inacc) :
    alookup (resTotalView inacc resources states) node = none ∧
    alookup (filteredRes inacc resources states) node = none := by
  constructor <;> simp [resTotalView, alookup_filteredRes, h]

/-- Witness for the amended C2 on the spec §8 scenario. -/
theorem total_view_filtered_witness :
    alookup (resTotalView INACCESSIBLE
      [("nodeA", [⟨"a100", 4⟩]), ("nodeB", [⟨"v100", 2⟩])]
      [("nodeA", "mix"), ("nodeB", "down")]) "nodeB" = none ∧
    alookup (filteredRes INACCESSIBLE
      [("nodeA", [⟨"a100", 4⟩]), ("nodeB", [⟨"v100", 2⟩])]
      [("nodeA", "mix"), ("nodeB", "down")]) "nodeB" = none :=
  total_view_filtered INACCESSIBLE
    [("nodeA", [⟨"a100", 4⟩]), ("nodeB", [⟨"v100", 2⟩])]
    [("nodeA", "mix"), ("nodeB", "down")] "nodeB" (by decide)

/-- C10: subtracting a user's usage of type `t` on a node rewrites only the
count of the first slot of that node whose type matches `t`; every other slot
of that node (including a later slot of the same type), every type field, and
every other node entry are left unchanged. -/
theorem availability_update_frame (res : Res) (node t : String) (n : Nat) (res' : Res)
    (h : updateNode res node t n = some res') :
    ∃ rpre rpost pre s post,
      res = rpre ++ (node, pre ++ s :: post) :: rpost ∧
      (∀ p ∈ rpre, p.1 ≠ node) ∧
      (∀ s' ∈ pre, s'.type ≠ t) ∧ s.type = t ∧
      res' = rpre ++ (node, pre ++ { s with count := s.count - n } :: post) :: rpost := by
  obtain ⟨rpre, slots, slots', rpost, he, hpre, hupd, hres⟩ := updateNode_eq h
  obtain ⟨pre, s, post, he2, hpre2, hts, hs2⟩ := updateSlot_eq hupd
  exact ⟨rpre, rpost, pre, s, post, by rw [he, he2], hpre, hpre2, hts, by rw [hres, hs2]⟩

/-- Witness for C10: a node with two slots of the same type; only the first
matching slot's count changes. -/
theorem availability_update_frame_witness :
    ∃ rpre rpost pre s post,
      ([("n1", [⟨"v100", 2⟩]), ("n2", [⟨"a100", 4⟩, ⟨"v100", 3⟩, ⟨"a100", 7⟩])] : Res)
        = rpre ++ ("n2", pre ++ s :: post) :: rpost ∧
      (∀ p ∈ rpre, p.1 ≠ "n2") ∧
      (∀ s' ∈ pre, s'.type ≠ "a100") ∧ s.type = "a100" ∧
      ([("n1", [⟨"v100", 2⟩]), ("n2", [⟨"a100", 3⟩, ⟨"v100", 3⟩, ⟨"a100", 7⟩])] : Res)
        = rpre ++ ("n2", pre ++ { s with count := s.count - 1 } :: post) :: rpost :=
  availability_update_frame
    [("n1", [⟨"v100", 2⟩]), ("n2", [⟨"a100", 4⟩, ⟨"v100", 3⟩, ⟨"a100", 7⟩])]
    "n2" "a100" 1
    [("n1", [⟨"v100", 2⟩]), ("n2", [⟨"a100", 3⟩, ⟨"v100", 3⟩, ⟨"a100", 7⟩])]
    (by rfl)

/-! ### Capability table and type ordering (app.py 16-19, 232-235)

`CAPABILITY` stores one-decimal Float ranks (8.0, 8.6, ...).  Ranks are stored
here scaled by ten as naturals (80, 86, ...), which preserves every comparison
the program makes.  `CAPABILITY.get(x, 10.0)` becomes `capGet` with default
100.  Python `sorted(..., key=k, reverse=True)` is a stable descending sort by
`k`; the stable sort of a list by a key is unique, and is embedded below as a
structurally recursive insertion sort (`sortDesc`) that inserts each element
after all earlier elements whose key is at least as large. -/

def CAPABILITY : List (String × Nat) :=
  [("a100", 80), ("a40", 86), ("a30", 80), ("a10", 86), ("a16", 86),
   ("v100", 70), ("gv100gl", 70),
   ("p40", 61), ("m40", 52),
   ("rtx6k", 75), ("rtx8k", 75)]

/-- `CAPABILITY.get(x, 10.0)` (rank scaled by ten). -/
def capGet (t : String) : Nat := agetD CAPABILITY t 100

/-- Stable insertion of `a` into a descending list: `a` goes after every
element whose key is strictly larger, and before every element whose key is
equal or smaller (`a` precedes all of them in the input). -/
def insertDesc {α : Type} (key : α → Nat) (a : α) : List α → List α
  | [] => [a]
  | b :: rest => if key b ≤ key a then a :: b :: rest else b :: insertDesc key a rest

/-- Stable descending sort by `key` (the behaviour of Python
`sorted(l, key=key, reverse=True)`). -/
def sortDesc {α : Type} (key : α → Nat) : List α → List α
  | [] => []
  | a :: rest => insertDesc key a (sortDesc key rest)

/-- `type_list = sorted(res_total_by_type.keys(), key=lambda x: CAPABILITY.get(x, 10.0), reverse=True)`. -/
def typeOrder (types : List String) : List String :=
  sortDesc capGet types

theorem insertDesc_perm {α : Type} (key : α → Nat) (a : α) (l : List α) :
    (insertDesc key a l).Perm (a :: l) := by
  induction l with
  | nil => simp [insertDesc]
  | cons b rest ih =>
      rw [insertDesc]
      by_cases h : key b ≤ key a
      · rw [if_pos h]
      · rw [if_neg h]
        exact (ih.cons b).trans (List.Perm.swap a b rest)

theorem sortDesc_perm {α : Type} (key : α → Nat) (l : List α) :
    (sortDesc key l).Perm l := by
  induction l with
  | nil => simp [sortDesc]
  | cons a rest ih =>
      exact (insertDesc_perm key a (sortDesc key rest)).trans (ih.cons a)

theorem insertDesc_sorted {α : Type} (key : α → Nat) (a : α) (l : List α)
    (hl : l.Pairwise (fun x y => key y ≤ key x)) :
    (insertDesc key a l).Pairwise (fun x y => key y ≤ key x) := by
  induction l with
  | nil => simp [insertDesc]
  | cons b rest ih =>
      rw [insertDesc]
      rcases List.pairwise_cons.mp hl with ⟨hb, hrest⟩
      by_cases h : key b ≤ key a
      · rw [if_pos h]
        refine List.pairwise_cons.mpr ⟨?_, hl⟩
        intro y hy
        rcases List.mem_cons.mp hy with hy | hy
        · subst hy; omega
        · have := hb y hy; omega
      · rw [if_neg h]
        refine List.pairwise_cons.mpr ⟨?_, ih hrest⟩
        intro y hy
        have hy' := (insertDesc_perm key a rest).mem_iff.mp hy
        rcases List.mem_cons.mp hy' with hy' | hy'
        · subst hy'; omega
        · exact hb y hy'

theorem sortDesc_sorted {α : Type} (key : α → Nat) (l : List α) :
    (sortDesc key l).Pairwise (fun x y => key y ≤ key x) := by
  induction l with
  | nil => simp [sortDesc]
  | cons a rest ih => exact insertDesc_sorted key a _ ih

theorem filter_insertDesc {α : Type} (key : α → Nat) (a : α) (l : List α) (k : Nat) :
    (insertDesc key a l).filter (fun x => decide (key x = k)) =
      if key a = k then a :: l.filter (fun x => decide (key x = k))
      else l.filter (fun x => decide (key x = k)) := by
  induction l with
  | nil =>
      by_cases h : key a = k <;> simp [insertDesc, h]
  | cons b rest ih =>
      rw [insertDesc]
      by_cases h : key b ≤ key a
      · rw [if_pos h]
        by_cases ha : key a = k <;> simp [List.filter, ha]
      · rw [if_neg h]
        by_cases ha : key a = k
        · have hbk : ¬ key b = k := by omega
          simp [List.filter, ha, hbk, ih]
        · by_cases hbk : key b = k <;> simp [List.filter, ha, hbk, ih]

/-- Stability of `sortDesc`: for each key value `k`, the subsequence of
elements whose key is `k` is unchanged. -/
theorem filter_sortDesc {α : Type} (key : α → Nat) (l : List α) (k : Nat) :
    (sortDesc key l).filter (fun x => decide (key x = k)) =
      l.filter (fun x => decide (key x = k)) := by
  induction l with
  | nil => simp [sortDesc]
  | cons a rest ih =>
      rw [sortDesc, filter_insertDesc key a _ k]
      by_cases ha : key a = k
      · rw [if_pos ha, ih]
        simp [List.filter, ha]
      · rw [if_neg ha, ih]
        simp [List.filter, ha]

theorem capability_ranks_lt (p : String × Nat) (hp : p ∈ CAPABILITY) : p.2 < 100 := by
  fin_cases hp <;> decide

/-- C3 counterexample: with inventory types `v100` (ranked 7.0) and `h100`
(absent from the capability table), the produced order lists the unranked
`h100` FIRST, not after the ranked types: the sentinel `10.0` of
`CAPABILITY.get(x, 10.0)` exceeds every listed rank and the sort is
descending. -/
theorem type_order_cex :
    typeOrder ["v100", "h100"] = ["h100", "v100"] ∧
    typeOrder ["v100", "h100"] ≠ ["v100", "h100"] := by
  constructor <;> decide

/-- C3 (amended): resource types are ordered by capability rank descending
where a type absent from the capability table is ranked at the sentinel 10.0,
which is larger than every listed rank; consequently every unranked type
appears BEFORE all ranked types (never after one), and types of equal rank —
in particular the unranked types among themselves — keep their relative input
order. -/
theorem type_order_ranked (types : List String) :
    (typeOrder types).Perm types ∧
    (typeOrder types).Pairwise (fun a b => capGet b ≤ capGet a) ∧
    (∀ k, (typeOrder types).filter (fun t => decide (capGet t = k)) =
          types.filter (fun t => decide (capGet t = k))) ∧
    (∀ a b r, alookup CAPABILITY b = some r → alookup CAPABILITY a = none →
       ¬ [b, a].Sublist (typeOrder types)) := by
  refine ⟨sortDesc_perm capGet types, sortDesc_sorted capGet types,
    fun k => filter_sortDesc capGet types k, ?_⟩
  intro a b r hb ha hsub
  have hpw : ([b, a] : List String).Pairwise (fun x y => capGet y ≤ capGet x) :=
    (sortDesc_sorted capGet types).sublist hsub
  have hba : capGet a ≤ capGet b := by
    rcases List.pairwise_cons.mp hpw with ⟨hba, _⟩
    exact hba a (List.mem_singleton.mpr rfl)
  have h100 : capGet a = 100 := by simp [capGet, agetD, ha]
  have hr : capGet b = r := by simp [capGet, agetD, hb]
  have := capability_ranks_lt (b, r) (alookup_mem hb)
  simp only at this
  omega

/-- Witness for the amended C3 at a concrete type list. -/
theorem type_order_ranked_witness :
    (typeOrder ["p40", "h100", "a100"]).Perm ["p40", "h100", "a100"] ∧
    (typeOrder ["p40", "h100", "a100"]).Pairwise (fun a b => capGet b ≤ capGet a) ∧
    (∀ k, (typeOrder ["p40", "h100", "a100"]).filter (fun t => decide (capGet t = k)) =
          (["p40", "h100", "a100"] : List String).filter (fun t => decide (capGet t = k))) ∧
    (∀ a b r, alookup CAPABILITY b = some r → alookup CAPABILITY a = none →
       ¬ [b, a].Sublist (typeOrder ["p40", "h100", "a100"])) :=
  type_order_ranked ["p40", "h100", "a100"]

/-! ### Leaderboard builder (`parse_leaderboard`, app.py 45-69) -/

structure UserAgg where
  n_gpu : List (String × Nat)
  bash_gpu : List (String × Nat)
deriving DecidableEq, Repr

/-- app.py 50-56: per-user and per-type sums of `n_gpu` and `bash_gpu` across
nodes, in the iteration order of the usage mapping. -/
def aggregates (usage : Usage) : List (String × UserAgg) :=
  usage.map (fun u =>
    (u.1,
      { n_gpu := u.2.map (fun tv => (tv.1, (tv.2.map (fun x => x.2.n_gpu)).sum)),
        bash_gpu := u.2.map (fun tv => (tv.1, (tv.2.map (fun x => x.2.bash_gpu)).sum)) }))

/-- The sort key of app.py 58-59: `sum(x[1]['n_gpu'].values())`. -/
def aggTotal (a : UserAgg) : Nat := (a.n_gpu.map Prod.snd).sum

/-- app.py 58-59: `sorted(aggregates.items(), key=lambda x: sum(x[1]['n_gpu'].values()), reverse=True)`. -/
def leaderboardOrder (usage : Usage) : List (String × UserAgg) :=
  sortDesc (fun p => aggTotal p.2) (aggregates usage)

/-- C4: the leaderboard lists users in descending order of total allocation
summed across all resource types; it is a permutation of the per-user
aggregates, and users with equal totals keep exactly the relative order they
have in the input usage mapping (stable, no alphabetical re-sorting) — the
aggregates themselves being in input usage order. -/
theorem leaderboard_ranking (usage : Usage) :
    (leaderboardOrder usage).Perm (aggregates usage) ∧
    (leaderboardOrder usage).Pairwise (fun a b => aggTotal b.2 ≤ aggTotal a.2) ∧
    (∀ k, (leaderboardOrder usage).filter (fun p => decide (aggTotal p.2 = k)) =
          (aggregates usage).filter (fun p => decide (aggTotal p.2 = k))) ∧
    (aggregates usage).map Prod.fst = usage.map Prod.fst := by
  refine ⟨sortDesc_perm _ _, sortDesc_sorted _ _, fun k => filter_sortDesc _ _ k, ?_⟩
  simp [aggregates]

/-- Witness for C4 at the spec §8 tie scenario input. -/
theorem leaderboard_ranking_witness :
    (leaderboardOrder
        [("carol", [("a100", [("n1", ⟨4, 0⟩)])]), ("dave", [("v100", [("n2", ⟨4, 0⟩)])])]).Perm
      (aggregates
        [("carol", [("a100", [("n1", ⟨4, 0⟩)])]), ("dave", [("v100", [("n2", ⟨4, 0⟩)])])]) ∧
    (leaderboardOrder
        [("carol", [("a100", [("n1", ⟨4, 0⟩)])]),
         ("dave", [("v100", [("n2", ⟨4, 0⟩)])])]).Pairwise
      (fun a b => aggTotal b.2 ≤ aggTotal a.2) ∧
    (∀ k, (leaderboardOrder
        [("carol", [("a100", [("n1", ⟨4, 0⟩)])]),
         ("dave", [("v100", [("n2", ⟨4, 0⟩)])])]).filter
          (fun p => decide (aggTotal p.2 = k)) =
        (aggregates
          [("carol", [("a100", [("n1", ⟨4, 0⟩)])]),
           ("dave", [("v100", [("n2", ⟨4, 0⟩)])])]).filter
          (fun p => decide (aggTotal p.2 = k))) ∧
    (aggregates
        [("carol", [("a100", [("n1", ⟨4, 0⟩)])]),
         ("dave", [("v100", [("n2", ⟨4, 0⟩)])])]).map Prod.fst =
      ([("carol", [("a100", [("n1", (⟨4, 0⟩ : GpuEntry))])]),
        ("dave", [("v100", [("n2", ⟨4, 0⟩)])])]).map Prod.fst :=
  leaderboard_ranking
    [("carol", [("a100", [("n1", ⟨4, 0⟩)])]), ("dave", [("v100", [("n2", ⟨4, 0⟩)])])]

/-- The spec §8 tie scenario evaluated: carol and dave both have total 4 and
appear in input order [carol, dave]; the leaderboard preserves that order. -/
theorem leaderboard_ranking_tie :
    leaderboardOrder
        [("carol", [("a100", [("n1", ⟨4, 0⟩)])]), ("dave", [("v100", [("n2", ⟨4, 0⟩)])])]
      = [("carol", ⟨[("a100", 4)], [("a100", 0)]⟩), ("dave", ⟨[("v100", 4)], [("v100", 0)]⟩)] := by
  decide

/-! ### Nested usage maps

Both usage aggregators build the same nested shape
`user → resource-type → node → value` out of `defaultdict`s:
`usage[user][t][node] := f(usage[user][t][node] or default)`, creating missing
keys on the way (appended in insertion order).  The Python two-branch update

```
if cpu_type in usage[user]:
    usage[user][cpu_type][node_name]['n_cpu'] += num_cpus
else:
    usage[user][cpu_type] = defaultdict(lambda: {'n_cpu': 0,})
    usage[user][cpu_type][node_name]['n_cpu'] += num_cpus
```

is exactly `nestedBump`: when the type key exists the node map is bumped in
place, otherwise a fresh (empty) node map is created and bumped. -/

def nestedBump {β : Type} (d : β) (f : β → β)
    (u : List (String × List (String × List (String × β))))
    (user t node : String) : List (String × List (String × List (String × β))) :=
  bumpKey [] (fun byType => bumpKey [] (fun byNode => bumpKey d f byNode node) byType t) u user

def nestedGet {β : Type} (d : β) (u : List (String × List (String × List (String × β))))
    (user t node : String) : β :=
  (alookup ((alookup ((alookup u user).getD []) t).getD []) node).getD d

theorem nestedGet_bump {β : Type} (d : β) (f : β → β)
    (u : List (String × List (String × List (String × β))))
    (user' t' node' user t node : String) :
    nestedGet d (nestedBump d f u user' t' node') user t node =
      if user = user' ∧ t = t' ∧ node = node' then f (nestedGet d u user t node)
      else nestedGet d u user t node := by
  by_cases hu : user = user'
  · subst hu
    by_cases ht : t = t'
    · subst ht
      by_cases hn : node = node'
      · subst hn
        simp [nestedGet, nestedBump, alookup_bumpKey, agetD]
      · simp [nestedGet, nestedBump, alookup_bumpKey, agetD, hn]
    · simp [nestedGet, nestedBump, alookup_bumpKey, agetD, ht]
  · simp [nestedGet, nestedBump, alookup_bumpKey, agetD, hu]

/-! ### The GPU usage aggregator (external input feed of the availability and
leaderboard computations) -/

/-- One raw allocation row, in the shape of the spec §6 allocation feed:
node list (empty for a pending job), user, resource type, allocated count,
and the interactive-session flag. -/
structure AllocRow where
  nodes : List String
  user : String
  gtype : String
  count : Nat
  interactive : Bool
deriving DecidableEq, Repr

/-- Modelled from the spec: `gpu_usage` is imported from the external
`slurm_gpustat` package and its body is not part of this repository.  Spec
§4.2: rows of pending jobs (recognised by the absence of a node assignment)
are excluded; for a multi-node job the allocated count is attributed
identically to every occupied node; rows naming a node absent from the
supplied inventory are skipped without error; accumulation is additive, and
the interactive ("bash") sub-count is accumulated separately. -/
def gpu_usage (resources : Res) (rows : List AllocRow) : Usage :=
  rows.foldl (fun u row =>
    if row.nodes = [] then u
    else row.nodes.foldl (fun u node =>
      if (alookup resources node).isSome then
        nestedBump (⟨0, 0⟩ : GpuEntry)
          (fun e => ⟨e.n_gpu + row.count,
                     e.bash_gpu + (if row.interactive then row.count else 0)⟩)
          u row.user row.gtype node
      else u) u) []

/-- The `n_gpu` count recorded at `(user, t, node)` (0 when absent). -/
def gpuLookup (u : Usage) (user t node : String) : Nat :=
  (nestedGet (⟨0, 0⟩ : GpuEntry) u user t node).n_gpu

theorem gpuLookup_zero_of_absent (resources : Res) (rows : List AllocRow) (bad : String)
    (hbad : alookup resources bad = none) (user t : String) :
    gpuLookup (gpu_usage resources rows) user t bad = 0 := by
  suffices h : ∀ (u : Usage), (∀ user t, gpuLookup u user t bad = 0) →
      ∀ user t, gpuLookup (rows.foldl (fun u row =>
        if row.nodes = [] then u
        else row.nodes.foldl (fun u node =>
          if (alookup resources node).isSome then
            nestedBump (⟨0, 0⟩ : GpuEntry)
              (fun e => ⟨e.n_gpu + row.count,
                         e.bash_gpu + (if row.interactive then row.count else 0)⟩)
              u row.user row.gtype node
          else u) u) u) user t bad = 0 by
    exact h [] (fun _ _ => rfl) user t
  induction rows with
  | nil => intro u hu user t; exact hu user t
  | cons row rest ih =>
      intro u hu user t
      rw [List.foldl_cons]
      apply ih
      by_cases hrow : row.nodes = []
      · simpa [hrow] using hu
      · rw [if_neg hrow]
        clear hrow
        induction row.nodes generalizing u with
        | nil => simpa using hu
        | cons nd nds ihn =>
            rw [List.foldl_cons]
            by_cases hnd : (alookup resources nd).isSome = true
            case neg =>
                rw [if_neg hnd]
                exact ihn u hu
            case pos =>
                intro user1 t1
                rw [if_pos hnd]
                apply ihn
                intro user2 t2
                have hne : ¬ bad = nd := by
                  intro hb
                  rw [hb] at hbad
                  rw [hbad] at hnd
                  simp at hnd
                rw [gpuLookup, nestedGet_bump]
                have : ¬ (user2 = row.user ∧ t2 = row.gtype ∧ bad = nd) := by
                  intro hc
                  exact hne hc.2.2
                rw [if_neg this]
                exact hu user2 t2

/-- C5 counterexample (spec-modelled `gpu_usage`): user bob's 2 units of p40 on
the uninventoried nodeC are skipped by the usage aggregator itself, so the
leaderboard is empty — it does NOT still report bob: p40=2. -/
theorem leaderboard_unknown_node_cex :
    gpu_usage [("nodeA", [⟨"a100", 4⟩])] [⟨["nodeC"], "bob", "p40", 2, false⟩] = [] ∧
    leaderboardOrder
      (gpu_usage [("nodeA", [⟨"a100", 4⟩])] [⟨["nodeC"], "bob", "p40", 2, false⟩]) = [] := by
  constructor <;> rfl

theorem gpuLookup_bump (u : Usage) (user0 t0 nd : String) (c : Nat) (bash : Bool)
    (user t node : String) :
    gpuLookup (nestedBump (⟨0, 0⟩ : GpuEntry)
        (fun e => ⟨e.n_gpu + c, e.bash_gpu + (if bash then c else 0)⟩) u user0 t0 nd)
        user t node =
      if user = user0 ∧ t = t0 ∧ node = nd then gpuLookup u user t node + c
      else gpuLookup u user t node := by
  rw [gpuLookup, nestedGet_bump]
  by_cases h : user = user0 ∧ t = t0 ∧ node = nd
  · rw [if_pos h, if_pos h]; rfl
  · rw [if_neg h, if_neg h]; rfl

/-- The `n_gpu` usage that the rows record at `(user, t, node)`: every
non-pending row with matching user and type contributes its full count once
per occurrence of the node in its node list, provided the node is in the
supplied inventory. -/
def rowsAt (fullRes : Res) : List AllocRow → String → String → String → Nat
  | [], _, _, _ => 0
  | row :: rest, user, t, node =>
      (if user = row.user ∧ t = row.gtype ∧ (alookup fullRes node).isSome = true
       then row.nodes.count node * row.count else 0) + rowsAt fullRes rest user t node

theorem gpuFoldNodes (fullRes : Res) (user0 t0 : String) (c : Nat) (bash : Bool)
    (user t node : String) :
    ∀ (nodes : List String) (u : Usage),
    gpuLookup (nodes.foldl (fun u nd =>
        if (alookup fullRes nd).isSome = true then
          nestedBump (⟨0, 0⟩ : GpuEntry)
            (fun e => ⟨e.n_gpu + c, e.bash_gpu + (if bash then c else 0)⟩)
            u user0 t0 nd
        else u) u) user t node
      = gpuLookup u user t node +
        (if user = user0 ∧ t = t0 ∧ (alookup fullRes node).isSome = true
         then nodes.count node * c else 0) := by
  intro nodes
  induction nodes with
  | nil => intro u; simp
  | cons nd nds ih =>
      intro u
      rw [List.foldl_cons]
      by_cases hs : (alookup fullRes nd).isSome = true
      · rw [if_pos hs, ih, gpuLookup_bump]
        by_cases hc : user = user0 ∧ t = t0 ∧ node = nd
        · rw [if_pos hc]
          obtain ⟨hu, ht, hn⟩ := hc
          have hsn : (alookup fullRes node).isSome = true := by rw [hn]; exact hs
          rw [if_pos ⟨hu, ht, hsn⟩, if_pos ⟨hu, ht, hsn⟩]
          rw [hn, List.count_cons_self]
          ring
        · rw [if_neg hc]
          by_cases hB : user = user0 ∧ t = t0 ∧ (alookup fullRes node).isSome = true
          · have hn : ¬ node = nd := by
              intro hnn
              exact hc ⟨hB.1, hB.2.1, hnn⟩
            rw [if_pos hB, if_pos hB, List.count_cons_of_ne hn]
          · rw [if_neg hB, if_neg hB]
      · rw [if_neg hs, ih]
        by_cases hB : user = user0 ∧ t = t0 ∧ (alookup fullRes node).isSome = true
        · have hn : ¬ node = nd := by
            intro hnn
            rw [hnn] at hB
            exact hs hB.2.2
          rw [if_pos hB, if_pos hB, List.count_cons_of_ne hn]
        · rw [if_neg hB, if_neg hB]

/-- Pointwise characterisation of the usage aggregator: it records at
`(user, t, node)` exactly the summed matching row allocations `rowsAt`. -/
theorem gpuLookup_gpu_usage (fullRes : Res) (rows : List AllocRow) (user t node : String) :
    gpuLookup (gpu_usage fullRes rows) user t node = rowsAt fullRes rows user t node := by
  suffices h : ∀ (rows0 : List AllocRow) (u : Usage),
      gpuLookup (rows0.foldl (fun u row =>
        if row.nodes = [] then u
        else row.nodes.foldl (fun u nd =>
          if (alookup fullRes nd).isSome = true then
            nestedBump (⟨0, 0⟩ : GpuEntry)
              (fun e => ⟨e.n_gpu + row.count,
                         e.bash_gpu + (if row.interactive then row.count else 0)⟩)
              u row.user row.gtype nd
          else u) u) u) user t node
        = gpuLookup u user t node + rowsAt fullRes rows0 user t node by
    have h0 := h rows []
    rw [show gpuLookup ([] : Usage) user t node = 0 from rfl, Nat.zero_add] at h0
    exact h0
  intro rows0
  induction rows0 with
  | nil => intro u; simp [rowsAt]
  | cons row rest ih =>
      intro u
      rw [List.foldl_cons, rowsAt]
      by_cases hrow : row.nodes = []
      · rw [if_pos hrow, ih]
        have hz : row.nodes.count node = 0 := by rw [hrow]; rfl
        rw [hz]
        simp
      · rw [if_neg hrow, ih,
          gpuFoldNodes fullRes row.user row.gtype row.count row.interactive user t node
            row.nodes u]
        rw [Nat.add_assoc]

theorem leaderboard_reports (usage : Usage) (user t node : String) (v : Nat)
    (hv : gpuLookup usage user t node = v) (hpos : 0 < v) :
    ∃ agg s, (user, agg) ∈ leaderboardOrder usage ∧
      alookup agg.n_gpu t = some s ∧ v ≤ s := by
  cases hu : alookup usage user with
  | none =>
      simp [gpuLookup, nestedGet, hu, alookup] at hv
      omega
  | some byType =>
      cases ht : alookup byType t with
      | none =>
          simp [gpuLookup, nestedGet, hu, ht, alookup] at hv
          omega
      | some byNode =>
          cases hn : alookup byNode node with
          | none =>
              simp [gpuLookup, nestedGet, hu, ht, hn, alookup] at hv
              omega
          | some e =>
              have hev : e.n_gpu = v := by
                simp [gpuLookup, nestedGet, hu, ht, hn] at hv
                exact hv
              refine ⟨⟨byType.map (fun tv => (tv.1, (tv.2.map (fun x => x.2.n_gpu)).sum)),
                      byType.map (fun tv => (tv.1, (tv.2.map (fun x => x.2.bash_gpu)).sum))⟩,
                (byNode.map (fun x => x.2.n_gpu)).sum, ?_, ?_, ?_⟩
              · have hmem : (user, byType) ∈ usage := alookup_mem hu
                have hmem2 := List.mem_map_of_mem (fun p : String × List (String × List (String × GpuEntry)) =>
                  (p.1, (⟨p.2.map (fun tv => (tv.1, (tv.2.map (fun x => x.2.n_gpu)).sum)),
                         p.2.map (fun tv => (tv.1, (tv.2.map (fun x => x.2.bash_gpu)).sum))⟩ : UserAgg))) hmem
                exact (sortDesc_perm (fun p => aggTotal p.2) (aggregates usage)).mem_iff.mpr hmem2
              · have h4 := alookup_map
                  (fun v : List (String × GpuEntry) => (v.map (fun x => x.2.n_gpu)).sum) byType t
                rw [ht] at h4
                exact h4
              · rw [← hev]
                exact List.single_le_sum (fun x _ => Nat.zero_le x) _
                  (List.mem_map_of_mem (fun x : String × GpuEntry => x.2.n_gpu) (alookup_mem hn))

/-- C5 (amended): the two reconciliation domains differ by the inventory they
are run against, not by node filtering inside the leaderboard.  Usage naming a
node absent from the full inventory is skipped by the usage aggregator, so it
appears in neither availability nor the leaderboard (the counterexample
refutes the original nodeC scenario).  Usage on a node that is in the full
inventory but excluded by the health filter is absent from the availability
computation — the node is not in the filtered inventory — while the usage
aggregator run against the full inventory records the full summed allocation
of the matching rows for that node, and the leaderboard reports that user with
a per-type total at least that amount. -/
theorem usage_reconciliation_domains (fullRes : Res) (inacc : List String) (states : States)
    (rows : List AllocRow) (node user t : String)
    (hexcl : stateOf states node ∈ inacc)
    (hpos : 0 < rowsAt fullRes rows user t node) :
    alookup (filteredRes inacc fullRes states) node = none ∧
    gpuLookup (gpu_usage fullRes rows) user t node = rowsAt fullRes rows user t node ∧
    ∃ agg s, (user, agg) ∈ leaderboardOrder (gpu_usage fullRes rows) ∧
      alookup agg.n_gpu t = some s ∧ rowsAt fullRes rows user t node ≤ s := by
  have hchar := gpuLookup_gpu_usage fullRes rows user t node
  refine ⟨by rw [alookup_filteredRes, if_pos hexcl], hchar, ?_⟩
  exact leaderboard_reports (gpu_usage fullRes rows) user t node
    (rowsAt fullRes rows user t node) hchar hpos

/-! ### CPU usage aggregator (`cpu_usage`, app.py 72-106)

The squeue rows arrive as whitespace-separated token lists
(`tokens = row.split()`).  A row with fewer than four tokens is a pending job
and is skipped (lines 88-90); with more than four tokens the four-variable
unpacking of line 91 raises `ValueError`, modelled as `none`.
`parse_node_names` (external, from `slurm_gpustat`) and `int(_.strip())` are
passed as oracle parameters `pnn` and `toNum`. -/

/-- One `{'type': ..., 'count': ...}` CPU inventory entry. -/
structure CpuSpec where
  type : String
  count : Nat
deriving DecidableEq, Repr

abbrev CpuRes := List (String × CpuSpec)

/-- `cpu_usage` output: user → cpu type → node → n_cpu. -/
abbrev CpuUsage := List (String × List (String × List (String × Nat)))

/-- Lines 86-105 for a single row: unpack the four tokens, look every occupied
node up in the inventory, skip the ones that are absent (lines 95-98), and add
the full `num_cpus` to each remaining `(user, type, node)` entry. -/
def processRow (resources : CpuRes) (pnn : String → List String) (toNum : String → Nat)
    (u : CpuUsage) (row : List String) : Option CpuUsage :=
  match row with
  | [c, nodeStr, user, _jobid] =>
      some ((pnn nodeStr).foldl (fun u node =>
        match alookup resources node with
        | none => u
        | some spec => nestedBump 0 (fun m => m + toNum c) u user spec.type node) u)
  | _ => if row.length < 4 then some u else none

/-- The full row loop of `cpu_usage`, starting from the empty usage mapping. -/
def cpu_usage (resources : CpuRes) (pnn : String → List String) (toNum : String → Nat)
    (rows : List (List String)) : Option CpuUsage :=
  rows.foldl (fun acc row => acc.bind (fun u => processRow resources pnn toNum u row)) (some [])

theorem foldNodes_count (resources : CpuRes) (user : String) (n : Nat) :
    ∀ (nodes : List String) (u : CpuUsage) (node : String) (spec : CpuSpec),
    alookup resources node = some spec →
    nestedGet 0 (nodes.foldl (fun u nd =>
        match alookup resources nd with
        | none => u
        | some sp => nestedBump 0 (fun m => m + n) u user sp.type nd) u) user spec.type node
      = nestedGet 0 u user spec.type node + (nodes.count node) * n := by
  intro nodes
  induction nodes with
  | nil =>
      intro u node spec _
      simp
  | cons nd nds ih =>
      intro u node spec hres
      rw [List.foldl_cons]
      by_cases hnd : nd = node
      · subst hnd
        rw [hres]
        rw [ih _ nd spec hres]
        rw [nestedGet_bump]
        rw [if_pos ⟨rfl, rfl, rfl⟩]
        rw [List.count_cons_self]
        ring
      · have hcnt : (nd :: nds).count node = nds.count node := by
          rw [List.count_cons_of_ne]
          exact fun hc => hnd hc.symm
        rw [hcnt]
        cases hra : alookup resources nd with
        | none => rw [ih _ node spec hres]
        | some sp =>
            rw [ih _ node spec hres]
            rw [nestedGet_bump]
            have hcond : ¬ (user = user ∧ spec.type = sp.type ∧ node = nd) := by
              intro hc
              exact hnd hc.2.2.symm
            rw [if_neg hcond]

/-- C6: a job row occupying several nodes attributes the row's FULL allocated
count identically to each occupied node present in inventory — the count is
not divided across the nodes: each of the k `(user, type, node)` entries grows
by the whole count. -/
theorem multinode_full_attribution (resources : CpuRes) (pnn : String → List String)
    (toNum : String → Nat) (u : CpuUsage) (c ns user jobid node : String) (spec : CpuSpec)
    (hres : alookup resources node = some spec) (hmem : node ∈ pnn ns)
    (hnodup : (pnn ns).Nodup) :
    ∃ u', processRow resources pnn toNum u [c, ns, user, jobid] = some u' ∧
      nestedGet 0 u' user spec.type node = nestedGet 0 u user spec.type node + toNum c := by
  refine ⟨_, rfl, ?_⟩
  rw [foldNodes_count resources user (toNum c) (pnn ns) u node spec hres]
  rw [List.count_eq_one_of_mem hnodup hmem]
  ring

/-- Witness for C6: a two-node job with 7 cpus; node n2 receives the full 7. -/
theorem multinode_full_attribution_witness :
    ∃ u', processRow [("n1", ⟨"cnode1xx", 1⟩), ("n2", ⟨"cnode2xx", 1⟩)]
        (fun _ => ["n1", "n2"]) (fun _ => 7) [] ["2", "n[1-2]", "alice", "1234"] = some u' ∧
      nestedGet 0 u' "alice" "cnode2xx" "n2" =
        nestedGet 0 ([] : CpuUsage) "alice" "cnode2xx" "n2" + 7 :=
  multinode_full_attribution [("n1", ⟨"cnode1xx", 1⟩), ("n2", ⟨"cnode2xx", 1⟩)]
    (fun _ => ["n1", "n2"]) (fun _ => 7) [] "2" "n[1-2]" "alice" "1234" "n2"
    ⟨"cnode2xx", 1⟩ (by rfl) (by decide) (by decide)

theorem foldNodes_preserves_zero (resources : CpuRes) (user0 : String) (n : Nat)
    (bad : String) (hbad : alookup resources bad = none) :
    ∀ (nodes : List String) (u : CpuUsage),
    (∀ user t, nestedGet 0 u user t bad = 0) →
    ∀ user t, nestedGet 0 (nodes.foldl (fun u nd =>
        match alookup resources nd with
        | none => u
        | some sp => nestedBump 0 (fun m => m + n) u user0 sp.type nd) u) user t bad = 0 := by
  intro nodes
  induction nodes with
  | nil => intro u hu user t; exact hu user t
  | cons nd nds ih =>
      intro u hu user t
      rw [List.foldl_cons]
      cases hra : alookup resources nd with
      | none => exact ih u hu user t
      | some sp =>
          apply ih
          intro user2 t2
          rw [nestedGet_bump]
          have hne : ¬ (user2 = user0 ∧ t2 = sp.type ∧ bad = nd) := by
            intro hc
            rw [hc.2.2] at hbad
            rw [hbad] at hra
            cases hra
          rw [if_neg hne]
          exact hu user2 t2

/-- C7: a row naming a node absent from the inventory mapping skips that node
silently: the aggregation over any row stream whose rows all have at most four
tokens completes without error, and no count at all is recorded under the
missing node. -/
theorem unknown_node_skipped (resources : CpuRes) (pnn : String → List String)
    (toNum : String → Nat) (rows : List (List String)) (bad : String)
    (hlen : ∀ row ∈ rows, row.length ≤ 4)
    (hbad : alookup resources bad = none) :
    ∃ u, cpu_usage resources pnn toNum rows = some u ∧
      ∀ user t, nestedGet 0 u user t bad = 0 := by
  suffices h : ∀ (rows : List (List String)) (u : CpuUsage),
      (∀ row ∈ rows, row.length ≤ 4) →
      (∀ user t, nestedGet 0 u user t bad = 0) →
      ∃ u', rows.foldl (fun acc row => acc.bind
          (fun u => processRow resources pnn toNum u row)) (some u) = some u' ∧
        ∀ user t, nestedGet 0 u' user t bad = 0 by
    exact h rows [] hlen (fun _ _ => rfl)
  intro rows0
  induction rows0 with
  | nil =>
      intro u _ hu
      exact ⟨u, rfl, hu⟩
  | cons row rest ih =>
      intro u hlen0 hu
      rw [List.foldl_cons, Option.some_bind]
      have hrow : row.length ≤ 4 := hlen0 row (List.mem_cons_self _ _)
      have hrest : ∀ r ∈ rest, r.length ≤ 4 :=
        fun r hr => hlen0 r (List.mem_cons_of_mem _ hr)
      match row, hrow with
      | [], _ =>
          exact ih u hrest (by simpa [processRow] using hu)
      | [a], _ =>
          exact ih u hrest (by simpa [processRow] using hu)
      | [a, b], _ =>
          exact ih u hrest (by simpa [processRow] using hu)
      | [a, b, c], _ =>
          exact ih u hrest (by simpa [processRow] using hu)
      | [c, nodeStr, user0, jobid], _ =>
          rw [processRow]
          exact ih _ hrest
            (foldNodes_preserves_zero resources user0 (toNum c) bad hbad (pnn nodeStr) u hu)

/-- Witness for C7: a stream with a pending row, a row on the uninventoried
node badnode, and a normal row; aggregation completes and badnode records
nothing. -/
theorem unknown_node_skipped_witness :
    ∃ u, cpu_usage [("n1", ⟨"cnode1xx", 4⟩)] (fun s => [s]) (fun _ => 2)
        [["8", "pending"], ["2", "badnode", "bob", "7"], ["2", "n1", "alice", "8"]] = some u ∧
      ∀ user t, nestedGet 0 u user t "badnode" = 0 :=
  unknown_node_skipped [("n1", ⟨"cnode1xx", 4⟩)] (fun s => [s]) (fun _ => 2)
    [["8", "pending"], ["2", "badnode", "bob", "7"], ["2", "n1", "alice", "8"]]
    "badnode" (by decide) (by rfl)

/-- Witness for the amended C5: nodeB is inventoried but down, and bob has one
row of 2 v100 on it — nodeB is absent from the availability inventory, the
aggregator records the full 2, and bob is on the leaderboard with a v100 total
of at least 2. -/
theorem usage_reconciliation_domains_witness :
    alookup (filteredRes INACCESSIBLE
      [("nodeA", [⟨"a100", 4⟩]), ("nodeB", [⟨"v100", 2⟩])]
      [("nodeA", "mix"), ("nodeB", "down")]) "nodeB" = none ∧
    gpuLookup (gpu_usage [("nodeA", [⟨"a100", 4⟩]), ("nodeB", [⟨"v100", 2⟩])]
        [⟨["nodeB"], "bob", "v100", 2, false⟩]) "bob" "v100" "nodeB" =
      rowsAt [("nodeA", [⟨"a100", 4⟩]), ("nodeB", [⟨"v100", 2⟩])]
        [⟨["nodeB"], "bob", "v100", 2, false⟩] "bob" "v100" "nodeB" ∧
    ∃ agg s, ("bob", agg) ∈ leaderboardOrder (gpu_usage
        [("nodeA", [⟨"a100", 4⟩]), ("nodeB", [⟨"v100", 2⟩])]
        [⟨["nodeB"], "bob", "v100", 2, false⟩]) ∧
      alookup agg.n_gpu "v100" = some s ∧
      rowsAt [("nodeA", [⟨"a100", 4⟩]), ("nodeB", [⟨"v100", 2⟩])]
        [⟨["nodeB"], "bob", "v100", 2, false⟩] "bob" "v100" "nodeB" ≤ s :=
  usage_reconciliation_domains [("nodeA", [⟨"a100", 4⟩]), ("nodeB", [⟨"v100", 2⟩])]
    INACCESSIBLE [("nodeA", "mix"), ("nodeB", "down")]
    [⟨["nodeB"], "bob", "v100", 2, false⟩] "nodeB" "bob" "v100"
    (by decide) (by decide)

/-! ### The accounting snapshot as a pure function of its feeds -/

/-- First-appearance list of the resource types of an inventory (the key order
of the external `resource_by_type` grouping). -/
def typesOf : List String → List String
  | [] => []
  | x :: rest => x :: typesOf (rest.filter (fun y => decide (y ≠ x)))
  termination_by l => l.length
  decreasing_by
    simp only [List.length_cons]
    exact Nat.lt_succ_of_le (List.length_filter_le _ _)

/-- The whole accounting computation of one request, as a function of the four
input feeds: inventory, health states, the allocation rows seen by the
availability computation, and the allocation rows seen by the leaderboard
(`parse_leaderboard` issues its own queries).  It returns the availability
view, the "total" view, the ranked type order and the ranked leaderboard. -/
def snapshot (inacc : List String) (resources : Res) (states : States)
    (rows lbRows : List AllocRow) :
    Option Res × Res × List String × List (String × UserAgg) :=
  (applyUsage (filteredRes inacc resources states)
      (gpu_usage (filteredRes inacc resources states) rows),
   resTotalView inacc resources states,
   typeOrder (typesOf ((resTotalView inacc resources states).flatMap
      (fun p => p.2.map Slot.type))),
   leaderboardOrder (gpu_usage resources lbRows))

/-- C8: the accounting computation is a pure function of its input feeds:
two runs over identical inventory, health and allocation feeds produce
identical output — there is no hidden or persisted state for it to depend
on. -/
theorem snapshot_deterministic (inacc₁ inacc₂ : List String) (resources₁ resources₂ : Res)
    (states₁ states₂ : States) (rows₁ rows₂ lb₁ lb₂ : List AllocRow)
    (h1 : inacc₁ = inacc₂) (h2 : resources₁ = resources₂) (h3 : states₁ = states₂)
    (h4 : rows₁ = rows₂) (h5 : lb₁ = lb₂) :
    snapshot inacc₁ resources₁ states₁ rows₁ lb₁ =
      snapshot inacc₂ resources₂ states₂ rows₂ lb₂ := by
  subst h1; subst h2; subst h3; subst h4; subst h5; rfl

/-- Witness for C8 at concrete feeds. -/
theorem snapshot_deterministic_witness :
    snapshot INACCESSIBLE [("nodeA", [⟨"a100", 4⟩])] [("nodeA", "mix")]
        [⟨["nodeA"], "alice", "a100", 3, false⟩] [⟨["nodeA"], "alice", "a100", 3, true⟩] =
      snapshot INACCESSIBLE [("nodeA", [⟨"a100", 4⟩])] [("nodeA", "mix")]
        [⟨["nodeA"], "alice", "a100", 3, false⟩] [⟨["nodeA"], "alice", "a100", 3, true⟩] :=
  snapshot_deterministic INACCESSIBLE INACCESSIBLE
    [("nodeA", [⟨"a100", 4⟩])] [("nodeA", [⟨"a100", 4⟩])]
    [("nodeA", "mix")] [("nodeA", "mix")]
    [⟨["nodeA"], "alice", "a100", 3, false⟩] [⟨["nodeA"], "alice", "a100", 3, false⟩]
    [⟨["nodeA"], "alice", "a100", 3, true⟩] [⟨["nodeA"], "alice", "a100", 3, true⟩]
    rfl rfl rfl rfl rfl

/-! ### The CPU table assertion (`parse_cpu_usage_to_table`, app.py 112-120) -/

/-- The head of `parse_cpu_usage_to_table` up to the construction of the
filtered CPU inventory.  `parse_cmd` output is the input list `nodeStrs`;
`assert isinstance(node_str, list) and len(node_str) == 1` aborts
(AssertionError, modelled `none`) unless exactly one row came back;
`parse_node_names` together with `.strip()` is the external oracle `pnn`;
each node gets the single slot `{'type': k[0:6]+'xx', 'count': 1}`, then the
same health filter as the GPU path runs, and the total view is the deep copy
of the filtered result. -/
def parse_cpu_front (pnn : String → List String) (inacc : List String) (states : States)
    (nodeStrs : List String) : Option (CpuRes × CpuRes) :=
  match nodeStrs with
  | [s] =>
      some (((pnn s).map (fun k => (k, (⟨k.take 6 ++ "xx", 1⟩ : CpuSpec)))).filter
              (fun p => decide (stateOf states p.1 ∉ inacc)),
            ((pnn s).map (fun k => (k, (⟨k.take 6 ++ "xx", 1⟩ : CpuSpec)))).filter
              (fun p => decide (stateOf states p.1 ∉ inacc)))
  | _ => none

/-- C9: the CPU-table computation proceeds exactly when the node-name query
produced a list with exactly one row; zero rows or several rows make the
assertion fail and abort the whole snapshot rather than degrade gracefully. -/
theorem cpu_table_assert (pnn : String → List String) (inacc : List String)
    (states : States) (nodeStrs : List String) :
    (parse_cpu_front pnn inacc states nodeStrs).isSome ↔ nodeStrs.length = 1 := by
  match nodeStrs with
  | [] => simp [parse_cpu_front]
  | [s] => simp [parse_cpu_front]
  | a :: b :: rest => simp [parse_cpu_front]

/-- Witness for C9: two rows back from the query — the computation aborts. -/
theorem cpu_table_assert_witness :
    (parse_cpu_front (fun s => [s]) INACCESSIBLE []
        ["cnode[1-4]", "cnode5"]).isSome ↔ (["cnode[1-4]", "cnode5"] : List String).length = 1 :=
  cpu_table_assert (fun s => [s]) INACCESSIBLE [] ["cnode[1-4]", "cnode5"]

end SlurmWeb
